import Mathlib

/-!
Formal model of the tts_test actor-cueing pipeline.

The definitions below are a shallow embedding of the active code of
`src/app.py` (the final, uncommented variant, lines 880-1092) and of
`src/remote_api.py`.  Python floats (timestamps, fuzzy scores, audio
samples) are modelled as rationals; the fuzzy scorer and the
transcription engine are external collaborators and appear as function
parameters; queues are lists consumed from the front.
-/

/-- A script cue record, as loaded from `script_cues.json` by
`load_script_cues`: a stable integer id, the Hindi match text used for
fuzzy matching, and the English audio file reference. -/
structure Cue where
  id : Int
  hi_text : String
  en_audio : String
deriving DecidableEq

/-- The mutable pipeline state shared by `main_logic`, `on_press` and the
remote API: `current_cue_index` (initially -1), `last_played_cue_id`
(initially `None`), `last_match_time` (initially 0), and the playback
request queue fed to `audio_playback`. -/
structure AppState where
  current_cue_index : Int
  last_played_cue_id : Option Int
  last_match_time : ℚ
  playback_queue : List String
deriving DecidableEq

/-- Startup state of the pipeline globals in `app.py`. -/
def initialState : AppState :=
  { current_cue_index := -1
    last_played_cue_id := none
    last_match_time := 0
    playback_queue := [] }

/-- The characters after the last occurrence of `sep` (the whole input when
`sep` does not occur); `acc` holds the current segment reversed. -/
def segAfterLast (sep : Char) : List Char → List Char → List Char
  | [], acc => acc.reverse
  | c :: rest, acc =>
    if c = sep then segAfterLast sep rest []
    else segAfterLast sep rest (c :: acc)

/-- `s.split('/')[-1]`: the last slash-separated component of a path. -/
def lastPart (s : String) : String :=
  ⟨segAfterLast '/' s.data []⟩

/-- `os.path.join(AUDIO_DIR, cue['en_audio'].split('/')[-1])` with
`AUDIO_DIR = "audio"`. -/
def audioPath (cue : Cue) : String :=
  "audio/" ++ lastPart cue.en_audio

/-- Python list indexing `xs[i]`: non-negative indices address from the
front, negative indices in `[-len, -1]` address from the back, anything
else raises `IndexError` (modelled as `none`). -/
def pyIndex (xs : List Cue) (i : Int) : Option Cue :=
  if 0 ≤ i then xs[i.toNat]?
  else if (-i).toNat ≤ xs.length then xs[xs.length - (-i).toNat]?
  else none

/-- `next((i for i, cue in enumerate(script_cues) if cue['id'] == target), default)`
without the default: index of the first cue with the given id. -/
def findIdxById (cues : List Cue) (target : Int) : Option Nat :=
  match cues with
  | [] => none
  | c :: rest =>
    if c.id = target then some 0
    else (findIdxById rest target).map (· + 1)

/-- One `main_logic` processing step for a dequeued transcript
(`src/app.py` lines 1019-1037).  `fuzzy` abstracts
`process.extractOne(text, cue_texts, scorer=fuzz.partial_ratio)`,
returning `(match, score, idx)`, or `none` when it raises (caught by the
surrounding `except`, leaving the state untouched).  Inside the cooldown
window the transcript is discarded before the scorer is even consulted;
on a score at or above the threshold the matched cue's index, id, the
current time and a playback request are committed. -/
def mainLogic (cues : List Cue) (fuzzy : String → Option (String × ℚ × Nat))
    (threshold cooldown now : ℚ) (text : String) (s : AppState) : AppState :=
  if now - s.last_match_time < cooldown then s
  else
    match fuzzy text with
    | none => s
    | some (_m, score, idx) =>
      if threshold ≤ score then
        match cues[idx]? with
        | some cue =>
          { current_cue_index := (idx : Int)
            last_played_cue_id := some cue.id
            last_match_time := now
            playback_queue := s.playback_queue ++ [audioPath cue] }
        | none => s
      else s

/-- The index `on_press` leaves in `current_cue_index` before the
unconditional `cue = script_cues[current_cue_index]` lookup
(`src/app.py` lines 1052-1057): `n` advances only below the last index,
`p` retreats only above 0, `r` jumps to the first index carrying
`last_played_cue_id` when that is set; in every other case the index is
left where it was. -/
def manualTargetIndex (cues : List Cue) (c : Char) (s : AppState) : Int :=
  if c = 'n' ∧ s.current_cue_index < (cues.length : Int) - 1 then
    s.current_cue_index + 1
  else if c = 'p' ∧ 0 < s.current_cue_index then
    s.current_cue_index - 1
  else if c = 'r' ∧ s.last_played_cue_id ≠ none then
    ((s.last_played_cue_id.bind fun lid =>
        (findIdxById cues lid).map (Nat.cast : ℕ → ℤ))).getD s.current_cue_index
  else s.current_cue_index

/-- One `on_press` hotkey event for a lower-cased character key
(`src/app.py` lines 1044-1064).  For `n`/`p`/`r` the (possibly moved)
index is looked up with Python indexing and, when the lookup succeeds,
a playback request is enqueued and `last_played_cue_id` /
`last_match_time` are written; an `IndexError` is swallowed by the
surrounding `except`, keeping the already-mutated index.  Any other key
does nothing. -/
def onPress (cues : List Cue) (now : ℚ) (c : Char) (s : AppState) : AppState :=
  if c = 'n' ∨ c = 'p' ∨ c = 'r' then
    let idx := manualTargetIndex cues c s
    match pyIndex cues idx with
    | some cue =>
      { current_cue_index := idx
        last_played_cue_id := some cue.id
        last_match_time := now
        playback_queue := s.playback_queue ++ [audioPath cue] }
    | none => { s with current_cue_index := idx }
  else s

/-- One request handled by the `audio_playback` thread
(`src/app.py` lines 998-1009).  `playable` abstracts whether
`playsound(file, block=True)` succeeds or raises.  The result is the
value of `is_playing` after the request together with the sequence of
observable micro-states `(is_playing, clip currently rendering)`: after
`is_playing = True` is written, while `playsound` renders, and after
`is_playing = False` is written.  When `playsound` raises, the reset of
`is_playing` is skipped (the exception jumps to the `except` handler), so
the flag stays `true`. -/
def pbTraceOne (playable : String → Bool) (f : String) (playing : Bool) :
    Bool × List (Bool × Option String) :=
  if f = "" then (playing, [])
  else if playable f then
    (false, [(true, none), (true, some f), (false, none)])
  else
    (true, [(true, none)])

/-- The `audio_playback` loop run over a queue of requests, from a given
initial `is_playing`, returning the final flag and the concatenated
micro-state trace. -/
def pbTrace (playable : String → Bool) :
    List String → Bool → Bool × List (Bool × Option String)
  | [], b => (b, [])
  | f :: rest, b =>
    let r := pbTraceOne playable f b
    let r' := pbTrace playable rest r.1
    (r'.1, r.2 ++ r'.2)

/-- One iteration of the `main_logic` loop (`src/app.py` lines 1015-1020)
including the `is_playing` guard: when the flag is observed `true` the
iteration sleeps without touching the transcription queue; otherwise the
head transcript (if any) is dequeued and processed. -/
def mainLogicIter (cues : List Cue) (fuzzy : String → Option (String × ℚ × Nat))
    (threshold cooldown : ℚ) (flag : Bool) (now : ℚ)
    (p : AppState × List String) : AppState × List String :=
  if flag then p
  else
    match p.2 with
    | [] => p
    | t :: rest => (mainLogic cues fuzzy threshold cooldown now t p.1, rest)

/-- The `main_logic` loop run over a schedule of iterations, each with the
`is_playing` value observed at its start and the current time. -/
def mainLogicRun (cues : List Cue) (fuzzy : String → Option (String × ℚ × Nat))
    (threshold cooldown : ℚ) :
    List (Bool × ℚ) → AppState × List String → AppState × List String
  | [], p => p
  | (b, t) :: ticks, p =>
    mainLogicRun cues fuzzy threshold cooldown ticks
      (mainLogicIter cues fuzzy threshold cooldown b t p)

/-- The `/api/manual` handler `manual_play` of `src/remote_api.py`
(lines 184-197): look the requested id up in the catalog; when absent,
raise `HTTPException(404)` before anything is mutated; otherwise commit
the index, a playback request, `last_played_cue_id` and
`last_match_time`, and answer with the cue id and audio file. -/
def manual_play (cues : List Cue) (now : ℚ) (cue_id : Int) (s : AppState) :
    AppState × Except Nat (Int × String) :=
  match cues.find? (fun c => c.id == cue_id) with
  | none => (s, .error 404)
  | some cue =>
    let idx := ((findIdxById cues cue_id).map (Nat.cast : ℕ → ℤ)).getD (-1)
    ({ current_cue_index := idx
       last_played_cue_id := some cue.id
       last_match_time := now
       playback_queue := s.playback_queue ++ [audioPath cue] },
     .ok (cue.id, cue.en_audio))

/-- Sum of squared samples of a chunk. -/
def sumSq : List ℚ → ℚ
  | [] => 0
  | x :: xs => x * x + sumSq xs

/-- The `transcriber` VAD test `np.sqrt(np.mean(chunk ** 2)) > SILENCE_THRESHOLD`
(`src/app.py` lines 972-973).  Since the square root is monotone on
non-negative reals, `rms > θ` is equivalent to `sumSq chunk > θ² · len`;
`thrSq` is the squared silence threshold. -/
def isSpeech (thrSq : ℚ) (chunk : List ℚ) : Bool :=
  decide (thrSq * chunk.length < sumSq chunk)

/-- Python `str.strip()`: remove leading and trailing whitespace. -/
def pyStrip (s : String) : String :=
  ⟨((s.data.dropWhile Char.isWhitespace).reverse.dropWhile Char.isWhitespace).reverse⟩

/-- Python `" ".join(xs)`: concatenate with single-space separators. -/
def joinSpace : List String → String
  | [] => ""
  | [x] => x
  | x :: y :: rest => x ++ " " ++ joinSpace (y :: rest)

/-- The `transcriber` thread's per-utterance state: the accumulated
`full_audio_buffer` (flattened) and `last_speech_time`. -/
structure SegState where
  buf : List ℚ
  lastSpeech : ℚ
deriving DecidableEq

/-- One `transcriber` iteration that received a chunk (`src/app.py`
lines 970-983).  The chunk is always appended to the buffer; when it is
speech, `last_speech_time` is moved to `now`.  When the silence window is
exceeded and the buffer is non-empty, the buffer is handed to the engine
as one utterance: on success the buffer is cleared, `last_speech_time`
is reset, and the joined, trimmed text is pushed as a transcript when
non-empty; when the engine raises, the `except` handler is reached with
the buffer and `last_speech_time` left as already computed (the clearing
assignments are skipped).  Result: new state, the utterance handed to the
engine (if any), and the transcript pushed (if any). -/
def trStep (thrSq D : ℚ) (engine : List ℚ → Except String (List String))
    (now : ℚ) (chunk : List ℚ) (s : SegState) :
    SegState × Option (List ℚ) × Option String :=
  let buf := s.buf ++ chunk
  let last := if isSpeech thrSq chunk then now else s.lastSpeech
  if D < now - last ∧ buf ≠ [] then
    match engine buf with
    | .ok segs =>
      let text := pyStrip (joinSpace segs)
      (⟨[], now⟩, some buf, if text = "" then none else some text)
    | .error _ => (⟨buf, last⟩, some buf, none)
  else (⟨buf, last⟩, none, none)

/-- The `transcriber` loop over a finite stream of timestamped chunks,
collecting the utterances handed to the engine and the transcripts
pushed onto the transcription queue. -/
def trRun (thrSq D : ℚ) (engine : List ℚ → Except String (List String)) :
    List (ℚ × List ℚ) → SegState → SegState × List (List ℚ) × List String
  | [], s => (s, [], [])
  | (t, c) :: rest, s =>
    let r := trStep thrSq D engine t c s
    let r' := trRun thrSq D engine rest r.1
    (r'.1, r.2.1.toList ++ r'.2.1, r.2.2.toList ++ r'.2.2)

/-- `n` copies of one chunk, flattened into a single sample list. -/
def rep (c : List ℚ) : ℕ → List ℚ
  | 0 => []
  | n + 1 => c ++ rep c n

/-- `n` consecutive frames of the same chunk, one time unit apart,
starting at time `t0`. -/
def frames (c : List ℚ) (t0 : ℚ) : ℕ → List (ℚ × List ℚ)
  | 0 => []
  | n + 1 => (t0, c) :: frames c (t0 + 1) n

/-- The C5 scenario stream: `k + 1` speech frames at times `0 … k`
followed by `m` silent frames at times `k+1 … k+m`. -/
def speechThenSilence (sp si : List ℚ) (k m : ℕ) : List (ℚ × List ℚ) :=
  frames sp 0 (k + 1) ++ frames si ((k : ℚ) + 1) m

/-- Whether an engine call succeeded. -/
def exOk : Except String (List String) → Bool
  | .ok _ => true
  | .error _ => false

/-- Helper invariant for the playback trace: whenever a clip is rendering,
`is_playing` is `true` (the flag is written before `playsound` is
entered). -/
theorem pbTrace_render_playing (playable : String → Bool) :
    ∀ (fs : List String) (b : Bool),
      ∀ q ∈ (pbTrace playable fs b).2, q.2.isSome → q.1 = true := by
  intro fs
  induction fs with
  | nil => intro b q hq; simp [pbTrace] at hq
  | cons f rest ih =>
    intro b q hq h
    simp only [pbTrace, List.mem_append] at hq
    rcases hq with hq | hq
    · unfold pbTraceOne at hq
      split at hq
      · simp at hq
      · split at hq <;> simp at hq <;> rcases hq with hq | hq | hq <;>
          simp_all
    · exact ih _ q hq h

/-- C2: on a play request whose resource cannot be played (`playsound`
raises), the exception skips the `is_playing = False` reset, so the
arbiter finishes the request with `is_playing` still `true` — contrary to
the claim that the error leaves the state non-playing. -/
theorem c2_error_leaves_is_playing_stuck :
    pbTrace (fun f => f != "audio/missing.wav") ["audio/missing.wav"] false
      = (true, [(true, none)]) := by
  decide

/-- C3: none of the three boundary cases of `on_press` is a no-op.  With a
two-cue catalog: `n` at the last index replays the cue at that index and
resets `last_match_time`; `p` at the startup index −1 plays the LAST cue
through Python negative indexing; `r` with `last_played_cue_id` unset also
plays the cue at index −1.  Each emits a play request and mutates state,
contradicting the claimed no-op. -/
theorem c3_boundary_commands_are_not_noops :
    (onPress [⟨1, "t1", "one.wav"⟩, ⟨2, "t2", "two.wav"⟩] 10 'n'
        ⟨1, some 1, 0, []⟩
      = ⟨1, some 2, 10, ["audio/two.wav"]⟩) ∧
    (onPress [⟨1, "t1", "one.wav"⟩, ⟨2, "t2", "two.wav"⟩] 10 'p'
        ⟨-1, none, 0, []⟩
      = ⟨-1, some 2, 10, ["audio/two.wav"]⟩) ∧
    (onPress [⟨1, "t1", "one.wav"⟩, ⟨2, "t2", "two.wav"⟩] 10 'r'
        ⟨-1, none, 0, []⟩
      = ⟨-1, some 2, 10, ["audio/two.wav"]⟩) := by
  decide

/-- C1 counterexample: it is not the case that, for every queue of playable
requests, `is_playing` stays `true` at every micro-state lying between two
rendering micro-states.  With two queued requests the arbiter writes
`is_playing = False` after the first render and only later `True` again
for the second, so a transient `false` is observable between the two
renders. -/
theorem c1_counterexample_transient_false :
    ¬ (∀ (playable : String → Bool) (fs : List String),
        (∀ f ∈ fs, f ≠ "" ∧ playable f = true) → 2 ≤ fs.length →
        ∀ (i j k : ℕ) (pi pj pk : Bool × Option String),
          (pbTrace playable fs false).2.get? i = some pi →
          (pbTrace playable fs false).2.get? j = some pj →
          (pbTrace playable fs false).2.get? k = some pk →
          i < j → j < k → pi.2.isSome → pk.2.isSome → pj.1 = true) := by
  intro h
  have h2 := h (fun _ => true) ["a", "b"] (by decide) (by decide)
    1 2 4 (true, some "a") (false, none) (true, some "b")
    (by decide) (by decide) (by decide) (by decide) (by decide)
    (by decide) (by decide)
  exact absurd h2 (by decide)

/-- C1 (amended): requests arriving while a clip renders simply queue
behind it; `playsound(block=True)` offers no pre-emption, each render runs
to completion with `is_playing` `true` throughout (first conjunct), and
between two consecutive renders the arbiter observably drops `is_playing`
to `false` before raising it again for the queued request (remaining
conjuncts exhibit the two renders and the `false` micro-state between
them). -/
theorem c1_renders_serialize_with_false_gap (playable : String → Bool)
    (f1 f2 : String) (rest : List String)
    (h1 : f1 ≠ "") (h2 : f2 ≠ "")
    (hp1 : playable f1 = true) (hp2 : playable f2 = true) :
    (∀ q ∈ (pbTrace playable (f1 :: f2 :: rest) false).2,
        q.2.isSome → q.1 = true) ∧
    (pbTrace playable (f1 :: f2 :: rest) false).2.get? 1
      = some (true, some f1) ∧
    (pbTrace playable (f1 :: f2 :: rest) false).2.get? 2
      = some (false, none) ∧
    (pbTrace playable (f1 :: f2 :: rest) false).2.get? 4
      = some (true, some f2) := by
  refine ⟨pbTrace_render_playing playable _ false, ?_, ?_, ?_⟩ <;>
    simp [pbTrace, pbTraceOne, h1, h2, hp1, hp2]

/-- C1 witness: the amended statement at a concrete two-request queue. -/
theorem c1_renders_serialize_with_false_gap_witness :
    (∀ q ∈ (pbTrace (fun _ => true) ["a", "b"] false).2,
        q.2.isSome → q.1 = true) ∧
    (pbTrace (fun _ => true) ["a", "b"] false).2.get? 1
      = some (true, some "a") ∧
    (pbTrace (fun _ => true) ["a", "b"] false).2.get? 2
      = some (false, none) ∧
    (pbTrace (fun _ => true) ["a", "b"] false).2.get? 4
      = some (true, some "b") :=
  c1_renders_serialize_with_false_gap (fun _ => true) "a" "b" []
    (by decide) (by decide) rfl rfl

/-- An index found by `findIdxById` is within the catalog. -/
theorem findIdxById_lt (cues : List Cue) (t : Int) :
    ∀ i, findIdxById cues t = some i → i < cues.length := by
  induction cues with
  | nil => intro i h; simp [findIdxById] at h
  | cons c rest ih =>
    intro i h
    simp only [findIdxById] at h
    split at h
    · simp only [Option.some.injEq] at h
      simp [← h]
    · cases hr : findIdxById rest t with
      | none => rw [hr] at h; simp at h
      | some j =>
        rw [hr] at h
        simp only [Option.map_some', Option.some.injEq] at h
        have := ih j hr
        simp [← h]
        omega

/-- Python indexing succeeds on a non-empty list for any index in
`[-len, len)`. -/
theorem pyIndex_isSome (cues : List Cue) (i : Int)
    (hne : cues ≠ []) (hlo : -(cues.length : Int) ≤ i)
    (hhi : i < (cues.length : Int)) :
    ∃ cue, pyIndex cues i = some cue := by
  have hlen : 0 < cues.length := List.length_pos.mpr hne
  unfold pyIndex
  by_cases h0 : 0 ≤ i
  · rw [if_pos h0]
    have hn : i.toNat < cues.length := by omega
    exact ⟨_, List.getElem?_eq_getElem hn⟩
  · rw [if_neg h0]
    have hle : (-i).toNat ≤ cues.length := by omega
    rw [if_pos hle]
    have hn : cues.length - (-i).toNat < cues.length := by omega
    exact ⟨_, List.getElem?_eq_getElem hn⟩

/-- The index written by a manual command stays in the range Python
indexing accepts, provided the incoming index was in that range. -/
theorem manualTargetIndex_bounds (cues : List Cue) (c : Char) (s : AppState)
    (hlo : -(cues.length : Int) ≤ s.current_cue_index)
    (hhi : s.current_cue_index < (cues.length : Int)) :
    -(cues.length : Int) ≤ manualTargetIndex cues c s ∧
      manualTargetIndex cues c s < (cues.length : Int) := by
  unfold manualTargetIndex
  split
  · constructor <;> omega
  · split
    · constructor <;> omega
    · split
      · cases hlp : s.last_played_cue_id with
        | none => simp only [Option.none_bind, Option.getD_none]; exact ⟨hlo, hhi⟩
        | some lid =>
          cases hf : findIdxById cues lid with
          | none =>
            simp only [Option.some_bind, hf, Option.map_none', Option.getD_none]
            exact ⟨hlo, hhi⟩
          | some j =>
            have hj := findIdxById_lt cues lid j hf
            simp only [Option.some_bind, hf, Option.map_some', Option.getD_some]
            constructor <;> omega
      · exact ⟨hlo, hhi⟩

/-- C4: inside the cooldown window an automatic match is discarded before
the fuzzy scorer is even consulted — whatever score it would report — and
the state (including the playback queue) is untouched; a manual
`n`/`p`/`r` command issued with the very same recent `last_match_time`
still enqueues a play request (`on_press` performs no cooldown check). -/
theorem c4_cooldown_gates_only_automatic_matches (cues : List Cue)
    (fuzzy : String → Option (String × ℚ × Nat))
    (threshold cooldown now : ℚ) (text : String) (s : AppState) (c : Char)
    (hcool : now - s.last_match_time < cooldown)
    (hc : c = 'n' ∨ c = 'p' ∨ c = 'r')
    (hne : cues ≠ [])
    (hlo : -(cues.length : Int) ≤ s.current_cue_index)
    (hhi : s.current_cue_index < (cues.length : Int)) :
    mainLogic cues fuzzy threshold cooldown now text s = s ∧
    ∃ cue, (onPress cues now c s).playback_queue
        = s.playback_queue ++ [audioPath cue] := by
  constructor
  · simp [mainLogic, hcool]
  · obtain ⟨blo, bhi⟩ := manualTargetIndex_bounds cues c s hlo hhi
    obtain ⟨cue, hcue⟩ := pyIndex_isSome cues _ hne blo bhi
    refine ⟨cue, ?_⟩
    simp [onPress, hc, hcue]

/-- C4 witness: concrete one-cue catalog, cooldown still active, `n`
pressed. -/
theorem c4_cooldown_gates_only_automatic_matches_witness :
    mainLogic [⟨7, "t", "a.wav"⟩] (fun _ => some ("t", 100, 0)) 60 5 3 "hello"
        ⟨0, some 7, 2, []⟩
      = ⟨0, some 7, 2, []⟩ ∧
    ∃ cue, (onPress [⟨7, "t", "a.wav"⟩] 3 'n' ⟨0, some 7, 2, []⟩).playback_queue
        = ([] : List String) ++ [audioPath cue] :=
  c4_cooldown_gates_only_automatic_matches [⟨7, "t", "a.wav"⟩]
    (fun _ => some ("t", 100, 0)) 60 5 3 "hello" ⟨0, some 7, 2, []⟩ 'n'
    (by norm_num) (by decide) (by decide) (by decide) (by decide)

/-- C7: outside the cooldown window, a fuzzy score exactly equal to the
threshold is accepted — the matched index, id, a play request and a fresh
`last_trigger_time` are committed — while a score one unit below the
threshold leaves the state (queue included) exactly as it was. -/
theorem c7_threshold_boundary (cues : List Cue)
    (fuzzy1 fuzzy2 : String → Option (String × ℚ × Nat))
    (threshold cooldown now : ℚ) (text : String) (s : AppState)
    (mtext : String) (idx : Nat) (cue : Cue)
    (hcool : ¬ (now - s.last_match_time < cooldown))
    (h1 : fuzzy1 text = some (mtext, threshold, idx))
    (h2 : fuzzy2 text = some (mtext, threshold - 1, idx))
    (hidx : cues[idx]? = some cue) :
    mainLogic cues fuzzy1 threshold cooldown now text s =
      { current_cue_index := (idx : Int)
        last_played_cue_id := some cue.id
        last_match_time := now
        playback_queue := s.playback_queue ++ [audioPath cue] } ∧
    mainLogic cues fuzzy2 threshold cooldown now text s = s := by
  constructor
  · simp [mainLogic, hcool, h1, hidx]
  · simp only [mainLogic, if_neg hcool, h2]
    rw [if_neg (by linarith)]

/-- C7 witness: one-cue catalog, threshold 60, scores 60 and 59. -/
theorem c7_threshold_boundary_witness :
    mainLogic [⟨7, "t", "a.wav"⟩] (fun _ => some ("t", 60, 0)) 60 5 9 "hello"
        ⟨-1, none, 0, []⟩
      = ⟨0, some 7, 9, ["audio/a.wav"]⟩ ∧
    mainLogic [⟨7, "t", "a.wav"⟩] (fun _ => some ("t", 59, 0)) 60 5 9 "hello"
        ⟨-1, none, 0, []⟩
      = ⟨-1, none, 0, []⟩ := by
  have h := c7_threshold_boundary [⟨7, "t", "a.wav"⟩]
    (fun _ => some ("t", 60, 0)) (fun _ => some ("t", 59, 0)) 60 5 9 "hello"
    ⟨-1, none, 0, []⟩ "t" 0 ⟨7, "t", "a.wav"⟩
    (by norm_num) rfl (by norm_num) rfl
  exact ⟨h.1, h.2⟩

/-- C8: a remote `/api/manual` request naming a cue id absent from the
catalog answers with the structured 404 error and mutates nothing: the
pipeline state, including `current_cue_index`, `last_played_cue_id`,
`last_match_time` and the playback queue, is returned untouched (the
`HTTPException` is raised before any assignment). -/
theorem c8_unknown_cue_id_is_rejected_without_mutation (cues : List Cue)
    (now : ℚ) (cue_id : Int) (s : AppState)
    (habsent : ∀ c ∈ cues, c.id ≠ cue_id) :
    manual_play cues now cue_id s = (s, .error 404) := by
  have hfind : cues.find? (fun c => c.id == cue_id) = none := by
    apply List.find?_eq_none.mpr
    intro c hc
    simpa using habsent c hc
  simp [manual_play, hfind]

/-- C8 witness: id 99 is not in a two-cue catalog. -/
theorem c8_unknown_cue_id_is_rejected_without_mutation_witness :
    manual_play [⟨1, "t1", "one.wav"⟩, ⟨2, "t2", "two.wav"⟩] 11 99
        ⟨0, some 1, 3, ["audio/one.wav"]⟩
      = (⟨0, some 1, 3, ["audio/one.wav"]⟩, .error 404) :=
  c8_unknown_cue_id_is_rejected_without_mutation
    [⟨1, "t1", "one.wav"⟩, ⟨2, "t2", "two.wav"⟩] 11 99
    ⟨0, some 1, 3, ["audio/one.wav"]⟩ (by decide)

/-- C9: an accepted automatic fuzzy match writes `last_played_cue_id` (not
only `current_cue_index` and `last_match_time`), and a subsequent manual
`r` on the resulting state — with no manual command ever issued before —
looks that id up and enqueues the very same cue's audio again. -/
theorem c9_auto_match_feeds_repeat (cues : List Cue)
    (fuzzy : String → Option (String × ℚ × Nat))
    (threshold cooldown now now2 : ℚ) (text : String) (s : AppState)
    (mtext : String) (score : ℚ) (idx : Nat) (cue : Cue)
    (hcool : ¬ (now - s.last_match_time < cooldown))
    (hf : fuzzy text = some (mtext, score, idx))
    (hsc : threshold ≤ score)
    (hidx : cues[idx]? = some cue)
    (hfind : findIdxById cues cue.id = some idx) :
    (mainLogic cues fuzzy threshold cooldown now text s).last_played_cue_id
      = some cue.id ∧
    onPress cues now2 'r' (mainLogic cues fuzzy threshold cooldown now text s) =
      { current_cue_index := (idx : Int)
        last_played_cue_id := some cue.id
        last_match_time := now2
        playback_queue := s.playback_queue ++ [audioPath cue, audioPath cue] } := by
  have hs : mainLogic cues fuzzy threshold cooldown now text s =
      { current_cue_index := (idx : Int)
        last_played_cue_id := some cue.id
        last_match_time := now
        playback_queue := s.playback_queue ++ [audioPath cue] } := by
    simp [mainLogic, hcool, hf, hsc, hidx]
  rw [hs]
  refine ⟨rfl, ?_⟩
  have hmti : manualTargetIndex cues 'r'
      { current_cue_index := (idx : Int)
        last_played_cue_id := some cue.id
        last_match_time := now
        playback_queue := s.playback_queue ++ [audioPath cue] } = (idx : Int) := by
    simp [manualTargetIndex, hfind]
  have hpy : pyIndex cues (idx : Int) = some cue := by
    simp [pyIndex, hidx]
  simp [onPress, hmti, hpy]

/-- C9 witness: a match on a one-cue catalog followed by `r`. -/
theorem c9_auto_match_feeds_repeat_witness :
    (mainLogic [⟨7, "t", "a.wav"⟩] (fun _ => some ("t", 80, 0)) 60 5 9 "hello"
        initialState).last_played_cue_id = some 7 ∧
    onPress [⟨7, "t", "a.wav"⟩] 10 'r'
        (mainLogic [⟨7, "t", "a.wav"⟩] (fun _ => some ("t", 80, 0)) 60 5 9 "hello"
          initialState) =
      { current_cue_index := 0
        last_played_cue_id := some 7
        last_match_time := 10
        playback_queue := [audioPath ⟨7, "t", "a.wav"⟩, audioPath ⟨7, "t", "a.wav"⟩] } :=
  c9_auto_match_feeds_repeat [⟨7, "t", "a.wav"⟩] (fun _ => some ("t", 80, 0))
    60 5 9 10 "hello" initialState "t" 80 0 ⟨7, "t", "a.wav"⟩
    (by norm_num [initialState]) rfl (by norm_num) rfl rfl

/-- C10: the `main_logic` loop never touches the transcription queue while
it observes `is_playing = true`: over any schedule whose every iteration
observes the flag `true`, both the state and the queue are exactly as at
the start; and over an arbitrary schedule, transcripts are only ever
removed from the front of the queue (whatever remains is a tail of the
original queue, still in order). -/
theorem c10_matcher_suspended_while_playing (cues : List Cue)
    (fuzzy : String → Option (String × ℚ × Nat)) (threshold cooldown : ℚ)
    (ticks : List (Bool × ℚ)) (p : AppState × List String) :
    ((∀ x ∈ ticks, x.1 = true) →
      mainLogicRun cues fuzzy threshold cooldown ticks p = p) ∧
    (∃ k, (mainLogicRun cues fuzzy threshold cooldown ticks p).2 = p.2.drop k) := by
  induction ticks generalizing p with
  | nil => exact ⟨fun _ => rfl, 0, rfl⟩
  | cons x ticks ih =>
    obtain ⟨b, t⟩ := x
    constructor
    · intro hall
      have hb : b = true := hall (b, t) (by simp)
      subst hb
      have hiter : mainLogicIter cues fuzzy threshold cooldown true t p = p := by
        simp [mainLogicIter]
      show mainLogicRun cues fuzzy threshold cooldown ticks
        (mainLogicIter cues fuzzy threshold cooldown true t p) = p
      rw [hiter]
      exact (ih p).1 fun y hy => hall y (by simp [hy])
    · obtain ⟨k, hk⟩ := (ih (mainLogicIter cues fuzzy threshold cooldown b t p)).2
      have hrun : mainLogicRun cues fuzzy threshold cooldown ((b, t) :: ticks) p
          = mainLogicRun cues fuzzy threshold cooldown ticks
              (mainLogicIter cues fuzzy threshold cooldown b t p) := rfl
      rw [hrun]
      cases b with
      | true =>
        refine ⟨k, ?_⟩
        simpa [mainLogicIter] using hk
      | false =>
        cases hq : p.2 with
        | nil =>
          refine ⟨k, ?_⟩
          rw [hk]
          simp [mainLogicIter, hq]
        | cons t0 rest =>
          refine ⟨k + 1, ?_⟩
          rw [hk]
          simp [mainLogicIter, hq, List.drop_succ_cons]

/-- C10 witness: two iterations that both observe `is_playing = true` leave
a one-transcript queue and the state untouched. -/
theorem c10_matcher_suspended_while_playing_witness :
    ((∀ x ∈ [((true : Bool), (0 : ℚ)), (true, 1)], x.1 = true) →
      mainLogicRun [⟨7, "t", "a.wav"⟩] (fun _ => some ("t", 80, 0)) 60 5
        [((true : Bool), (0 : ℚ)), (true, 1)] (initialState, ["hello"])
        = (initialState, ["hello"])) ∧
    (∃ k, (mainLogicRun [⟨7, "t", "a.wav"⟩] (fun _ => some ("t", 80, 0)) 60 5
        [((true : Bool), (0 : ℚ)), (true, 1)] (initialState, ["hello"])).2
        = ["hello"].drop k) :=
  c10_matcher_suspended_while_playing [⟨7, "t", "a.wav"⟩]
    (fun _ => some ("t", 80, 0)) 60 5 [((true : Bool), (0 : ℚ)), (true, 1)]
    (initialState, ["hello"])

/-- `rep` pushes one trailing copy through. -/
theorem rep_append_one (c : List ℚ) (n : ℕ) :
    rep c n ++ c = rep c (n + 1) := by
  induction n with
  | zero => simp [rep]
  | succ n ih => simp only [rep, List.append_assoc, ih]

/-- Splitting a frame sequence splits the run, concatenating the collected
utterances and transcripts. -/
theorem trRun_append (thrSq D : ℚ) (engine : List ℚ → Except String (List String))
    (xs ys : List (ℚ × List ℚ)) (s : SegState) :
    trRun thrSq D engine (xs ++ ys) s =
      ((trRun thrSq D engine ys (trRun thrSq D engine xs s).1).1,
       (trRun thrSq D engine xs s).2.1
         ++ (trRun thrSq D engine ys (trRun thrSq D engine xs s).1).2.1,
       (trRun thrSq D engine xs s).2.2
         ++ (trRun thrSq D engine ys (trRun thrSq D engine xs s).1).2.2) := by
  induction xs generalizing s with
  | nil => simp [trRun]
  | cons x xs ih =>
    obtain ⟨t, c⟩ := x
    simp only [List.cons_append, trRun, List.append_eq]
    rw [ih]
    simp [List.append_assoc]

/-- A run of `n + 1` speech frames one time unit apart never flushes: every
frame moves `last_speech_time` to its own arrival time, so the silence
window is never exceeded (given `0 ≤ D`); the frames pile up in the
buffer and `last_speech_time` ends at the last frame's time. -/
theorem trRun_speech (thrSq D : ℚ) (engine : List ℚ → Except String (List String))
    (sp : List ℚ) (hsp : isSpeech thrSq sp = true) (hD : 0 ≤ D) :
    ∀ (n : ℕ) (t0 : ℚ) (B : List ℚ) (l : ℚ),
      trRun thrSq D engine (frames sp t0 (n + 1)) ⟨B, l⟩ =
        (⟨B ++ rep sp (n + 1), t0 + n⟩, [], []) := by
  have hstep : ∀ (t0 : ℚ) (B : List ℚ) (l : ℚ),
      trStep thrSq D engine t0 sp ⟨B, l⟩ = (⟨B ++ sp, t0⟩, none, none) := by
    intro t0 B l
    unfold trStep
    simp only [hsp, if_true]
    rw [if_neg]
    simp only [not_and]
    intro hlt
    exact absurd hlt (by simp; linarith)
  intro n
  induction n with
  | zero =>
    intro t0 B l
    simp [frames, trRun, hstep, rep]
  | succ n ih =>
    intro t0 B l
    have hgoal : trRun thrSq D engine (frames sp t0 (n + 1 + 1)) ⟨B, l⟩
        = trRun thrSq D engine (frames sp (t0 + 1) (n + 1)) ⟨B ++ sp, t0⟩ := by
      simp [frames, trRun, hstep]
    rw [hgoal, ih (t0 + 1) (B ++ sp) t0]
    have hbuf : (B ++ sp) ++ rep sp (n + 1) = B ++ rep sp (n + 1 + 1) := by
      rw [List.append_assoc]
      rfl
    have htime : (t0 + 1) + (n : ℚ) = t0 + ((n + 1 : ℕ) : ℚ) := by
      push_cast
      ring
    rw [hbuf, htime]

/-- A run of `n` silent frames one time unit apart starting at `t0` never
flushes as long as the last of them still lies inside the silence window
measured from `last_speech_time = l` (that is, `t0 + n ≤ l + D + 1`):
the frames are appended and `last_speech_time` stays at `l`. -/
theorem trRun_silence_quiet (thrSq D : ℚ)
    (engine : List ℚ → Except String (List String))
    (si : List ℚ) (hsi : isSpeech thrSq si = false) :
    ∀ (n : ℕ) (t0 : ℚ) (B : List ℚ) (l : ℚ),
      t0 + (n : ℚ) ≤ l + D + 1 →
      trRun thrSq D engine (frames si t0 n) ⟨B, l⟩ =
        (⟨B ++ rep si n, l⟩, [], []) := by
  intro n
  induction n with
  | zero => intro t0 B l _; simp [frames, trRun, rep]
  | succ n ih =>
    intro t0 B l hwin
    have hn : (0 : ℚ) ≤ (n : ℚ) := Nat.cast_nonneg n
    have hstep : trStep thrSq D engine t0 si ⟨B, l⟩ = (⟨B ++ si, l⟩, none, none) := by
      unfold trStep
      simp only [hsi, Bool.false_eq_true, if_false]
      rw [if_neg]
      simp only [not_and]
      intro hlt
      push_cast at hwin
      exact absurd hlt (by simp; linarith)
    have hrun : trRun thrSq D engine (frames si t0 (n + 1)) ⟨B, l⟩
        = trRun thrSq D engine (frames si (t0 + 1) n) ⟨B ++ si, l⟩ := by
      simp [frames, trRun, hstep]
    rw [hrun, ih (t0 + 1) (B ++ si) l (by push_cast at hwin ⊢; linarith)]
    have hbuf : (B ++ si) ++ rep si n = B ++ rep si (n + 1) := by
      rw [List.append_assoc]
      rfl
    rw [hbuf]

/-- A silent frame arriving after the silence window has been exceeded
flushes: the buffer (with this frame appended) is handed to the engine,
and on success the buffer is cleared, `last_speech_time` jumps to `now`,
and the joined-and-trimmed text is pushed when non-empty. -/
theorem trStep_flush_ok (thrSq D : ℚ)
    (engine : List ℚ → Except String (List String))
    (c B : List ℚ) (l t : ℚ) (segs : List String)
    (hc : isSpeech thrSq c = false) (ht : D < t - l) (hne : B ++ c ≠ [])
    (he : engine (B ++ c) = .ok segs) :
    trStep thrSq D engine t c ⟨B, l⟩ =
      (⟨[], t⟩, some (B ++ c),
        if pyStrip (joinSpace segs) = "" then none
        else some (pyStrip (joinSpace segs))) := by
  unfold trStep
  simp only [hc]
  rw [if_pos ⟨by simpa using ht, hne⟩, he]

/-- Unit-spaced frame blocks concatenate. -/
theorem frames_add (c : List ℚ) (a b : ℕ) :
    ∀ t0 : ℚ, frames c t0 (a + b) = frames c t0 a ++ frames c (t0 + (a : ℚ)) b := by
  induction a with
  | zero => intro t0; simp [frames]
  | succ a ih =>
    intro t0
    have hsh : a + 1 + b = (a + b) + 1 := by omega
    rw [hsh]
    simp only [frames, List.cons_append]
    rw [ih (t0 + 1)]
    have harith : t0 + 1 + (a : ℚ) = t0 + ((a + 1 : ℕ) : ℚ) := by
      push_cast
      ring
    rw [harith]

/-- A non-empty repetition of a non-empty chunk is non-empty. -/
theorem rep_ne_nil (c : List ℚ) (hc : c ≠ []) (n : ℕ) : rep c (n + 1) ≠ [] := by
  intro h
  rw [rep] at h
  exact hc (List.append_eq_nil.mp h).1

/-- Helper: for `k + 1` speech frames followed by `m` silent frames, one
time unit apart, with `D + 1 ≤ m ≤ 2D + 1`, the run flushes exactly one
utterance, cut at the `(D+1)`-st silent frame; it spans the whole stream
exactly when `m = D + 1`. -/
theorem trRun_speech_then_silence (thrSq : ℚ) (D : ℕ)
    (engine : List ℚ → Except String (List String))
    (sp si : List ℚ) (k m : ℕ)
    (heng : ∀ b, exOk (engine b) = true)
    (hsp : isSpeech thrSq sp = true) (hsi : isSpeech thrSq si = false)
    (hm1 : D + 1 ≤ m) (hm2 : m ≤ 2 * D + 1) :
    (trRun thrSq (D : ℚ) engine (speechThenSilence sp si k m) ⟨[], 0⟩).2.1
      = [rep sp (k + 1) ++ rep si (D + 1)] ∧
    (m = D + 1 →
      rep sp (k + 1) ++ rep si (D + 1) = rep sp (k + 1) ++ rep si m) := by
  have hDq : (0 : ℚ) ≤ (D : ℚ) := Nat.cast_nonneg D
  have hspne : sp ≠ [] := by
    intro h
    rw [h] at hsp
    simp [isSpeech, sumSq] at hsp
  obtain ⟨r, hr⟩ : ∃ r, m = (D + 1) + r := ⟨m - (D + 1), by omega⟩
  have hrle : r ≤ D := by omega
  have hrq : (r : ℚ) ≤ (D : ℚ) := by exact_mod_cast hrle
  subst hr
  constructor
  case right => intro h; have hr0 : r = 0 := by omega
                subst hr0; rfl
  have hne3 : (rep sp (k + 1) ++ rep si D) ++ si ≠ [] := by
    intro h
    exact rep_ne_nil sp hspne k
      (List.append_eq_nil.mp (List.append_eq_nil.mp h).1).1
  obtain ⟨segs, hsegs⟩ :
      ∃ segs, engine ((rep sp (k + 1) ++ rep si D) ++ si) = .ok segs := by
    cases h : engine ((rep sp (k + 1) ++ rep si D) ++ si) with
    | ok s2 => exact ⟨s2, rfl⟩
    | error e =>
      have hx := heng ((rep sp (k + 1) ++ rep si D) ++ si)
      rw [h] at hx
      simp [exOk] at hx
  have hdec : frames si ((k : ℚ) + 1) (D + 1 + r)
      = frames si ((k : ℚ) + 1) D ++ (frames si ((k : ℚ) + 1 + D) 1
          ++ frames si ((k : ℚ) + 1 + D + 1) r) := by
    have e1 : D + 1 + r = D + (1 + r) := by omega
    rw [e1, frames_add si D (1 + r) ((k : ℚ) + 1),
      frames_add si 1 r ((k : ℚ) + 1 + (D : ℚ))]
    norm_num
  have h1 : trRun thrSq (D : ℚ) engine (frames sp 0 (k + 1)) ⟨[], 0⟩
      = (⟨rep sp (k + 1), (k : ℚ)⟩, [], []) := by
    have := trRun_speech thrSq (D : ℚ) engine sp hsp hDq k 0 [] 0
    simpa using this
  have h2 : trRun thrSq (D : ℚ) engine (frames si ((k : ℚ) + 1) D)
        ⟨rep sp (k + 1), (k : ℚ)⟩
      = (⟨rep sp (k + 1) ++ rep si D, (k : ℚ)⟩, [], []) :=
    trRun_silence_quiet thrSq (D : ℚ) engine si hsi D ((k : ℚ) + 1)
      (rep sp (k + 1)) (k : ℚ) (by linarith)
  have h3 : trRun thrSq (D : ℚ) engine (frames si ((k : ℚ) + 1 + D) 1)
        ⟨rep sp (k + 1) ++ rep si D, (k : ℚ)⟩
      = (⟨[], (k : ℚ) + 1 + D⟩, [(rep sp (k + 1) ++ rep si D) ++ si],
          (if pyStrip (joinSpace segs) = "" then none
           else some (pyStrip (joinSpace segs))).toList) := by
    have hstep := trStep_flush_ok thrSq (D : ℚ) engine si
      (rep sp (k + 1) ++ rep si D) (k : ℚ) ((k : ℚ) + 1 + D) segs hsi
      (by linarith) hne3 hsegs
    simp [frames, trRun, hstep]
  have h4 : trRun thrSq (D : ℚ) engine (frames si ((k : ℚ) + 1 + D + 1) r)
        ⟨[], (k : ℚ) + 1 + D⟩
      = (⟨rep si r, (k : ℚ) + 1 + D⟩, [], []) := by
    have := trRun_silence_quiet thrSq (D : ℚ) engine si hsi r
      ((k : ℚ) + 1 + D + 1) [] ((k : ℚ) + 1 + D) (by linarith)
    simpa using this
  rw [speechThenSilence, hdec]
  simp only [trRun_append, h1, h2, h3, h4]
  simp [List.append_assoc, rep_append_one]

/-- C5 (amended): for a stream of `k + 1` speech frames followed by `m`
silent frames (one time unit apart, integral silence window `D`), with
`D + 1 ≤ m ≤ 2D + 1`, the transcriber flushes exactly one utterance: it
is cut at the first silent frame at which the elapsed silence exceeds
`SILENCE_DURATION`, so it contains every frame from the start of the
stream through the `(D+1)`-st silent frame — all speech frames and the
leading `D + 1` frames of the gap; it equals the whole stream exactly
when the gap ends there (`m = D + 1`). -/
theorem c5_one_utterance_cut_at_window (thrSq : ℚ) (D : ℕ)
    (engine : List ℚ → Except String (List String))
    (sp si : List ℚ) (k m : ℕ)
    (heng : ∀ b, exOk (engine b) = true)
    (hsp : isSpeech thrSq sp = true) (hsi : isSpeech thrSq si = false)
    (hm1 : D + 1 ≤ m) (hm2 : m ≤ 2 * D + 1) :
    (trRun thrSq (D : ℚ) engine (speechThenSilence sp si k m) ⟨[], 0⟩).2.1
      = [rep sp (k + 1) ++ rep si (D + 1)] ∧
    (m = D + 1 →
      rep sp (k + 1) ++ rep si (D + 1) = rep sp (k + 1) ++ rep si m) :=
  trRun_speech_then_silence thrSq D engine sp si k m heng hsp hsi hm1 hm2

/-- C5 witness: one speech frame `[2]` then three silent frames `[0]`, with
squared threshold 1 and `D = 2`: exactly one utterance containing the
whole stream. -/
theorem c5_one_utterance_cut_at_window_witness :
    (trRun 1 ((2 : ℕ) : ℚ) (fun _ => .ok ["x"])
        (speechThenSilence [2] [0] 0 3) ⟨[], 0⟩).2.1
      = [rep [2] (0 + 1) ++ rep [0] (2 + 1)] ∧
    ((3 : ℕ) = 2 + 1 → rep [2] (0 + 1) ++ rep [0] (2 + 1)
      = rep [2] (0 + 1) ++ rep [0] 3) :=
  c5_one_utterance_cut_at_window 1 2 (fun _ => .ok ["x"]) [2] [0] 0 3
    (fun _ => rfl) (by norm_num [isSpeech, sumSq]) (by norm_num [isSpeech, sumSq])
    (by norm_num) (by norm_num)

/-- C5 counterexample: it is not the case that every speech burst followed
by a silence gap of at least `SILENCE_DURATION` yields exactly one
Utterance containing all frames through the end of the gap.  With `D = 2`
and a gap of 4 silent frames, the flush happens at the third silent frame,
so the emitted utterance misses the gap's trailing frame (and still longer
gaps produce a second, silence-only utterance). -/
theorem c5_counterexample_long_gap :
    ¬ (∀ (thrSq : ℚ) (D : ℕ) (engine : List ℚ → Except String (List String))
         (sp si : List ℚ) (k m : ℕ),
         (∀ b, exOk (engine b) = true) →
         isSpeech thrSq sp = true → isSpeech thrSq si = false →
         D ≤ m →
         (trRun thrSq (D : ℚ) engine (speechThenSilence sp si k m) ⟨[], 0⟩).2.1
           = [rep sp (k + 1) ++ rep si m]) := by
  intro h
  have h2 := h 1 2 (fun _ => .ok ["x"]) [2] [0] 0 4
    (fun _ => rfl) (by norm_num [isSpeech, sumSq]) (by norm_num [isSpeech, sumSq])
    (by norm_num)
  have hvals := (trRun_speech_then_silence 1 2 (fun _ => .ok ["x"]) [2] [0] 0 4
    (fun _ => rfl) (by norm_num [isSpeech, sumSq]) (by norm_num [isSpeech, sumSq])
    (by norm_num) (by norm_num)).1
  rw [hvals] at h2
  simp [rep] at h2

/-- A speech frame never flushes (it just moved `last_speech_time` to
`now`); it is appended to the buffer. -/
theorem trStep_speech (thrSq D : ℚ)
    (engine : List ℚ → Except String (List String))
    (c B : List ℚ) (l t : ℚ)
    (hc : isSpeech thrSq c = true) (hD : 0 ≤ D) :
    trStep thrSq D engine t c ⟨B, l⟩ = (⟨B ++ c, t⟩, none, none) := by
  unfold trStep
  simp only [hc, if_true]
  rw [if_neg]
  simp only [not_and]
  intro hlt
  exact absurd hlt (by simp; linarith)

/-- A silent frame that still lies inside the silence window is appended
without flushing and leaves `last_speech_time` alone. -/
theorem trStep_quiet (thrSq D : ℚ)
    (engine : List ℚ → Except String (List String))
    (c B : List ℚ) (l t : ℚ)
    (hc : isSpeech thrSq c = false) (ht : t - l ≤ D) :
    trStep thrSq D engine t c ⟨B, l⟩ = (⟨B ++ c, l⟩, none, none) := by
  unfold trStep
  simp only [hc, Bool.false_eq_true, if_false]
  rw [if_neg]
  simp only [not_and]
  intro hlt
  linarith

/-- A flush on which the engine raises: the utterance is handed to the
engine, but the `except` handler is reached before the buffer-clearing
assignments, so the buffer (audio of the failed utterance included) and
`last_speech_time` survive into the next iteration and no transcript is
pushed. -/
theorem trStep_flush_error (thrSq D : ℚ)
    (engine : List ℚ → Except String (List String))
    (c B : List ℚ) (l t : ℚ) (msg : String)
    (hc : isSpeech thrSq c = false) (ht : D < t - l) (hne : B ++ c ≠ [])
    (he : engine (B ++ c) = .error msg) :
    trStep thrSq D engine t c ⟨B, l⟩ = (⟨B ++ c, l⟩, some (B ++ c), none) := by
  unfold trStep
  simp only [hc, Bool.false_eq_true, if_false]
  rw [if_pos ⟨by simpa using ht, hne⟩, he]

/-- The end-to-end scenario 4 stream (`SILENCE_THRESHOLD² = 1`,
`SILENCE_DURATION = 1`): utterance #4 is the frame `[2]`, #5 is `[3]`,
#6 is `[4]`, each followed by silent `[0]` frames long enough to trigger
a flush. -/
def c6stream : List (ℚ × List ℚ) :=
  [(0, [2]), (1, [0]), (2, [0]), (3, [3]), (4, [0]), (5, [0]), (6, [0]),
   (7, [4]), (8, [0]), (9, [0])]

/-- Helper: running the scenario-4 stream against an engine that accepts
the #4 buffer `[2,0,0]`, raises on the #5 buffer `[3,0,0]`, and accepts
the re-submitted, grown buffer `[3,0,0,0]` and the #6 buffer `[4,0,0]`:
the engine is invoked on all four buffers (the failed one is retried with
one more silent frame), and the pushed transcripts are the texts of #4,
of the retained #5 audio, and of #6, in that order. -/
theorem trRun_c6stream (e : List ℚ → Except String (List String))
    (t4 t5 t6 : List String) (msg : String)
    (h4 : e [2, 0, 0] = .ok t4)
    (h5e : e [3, 0, 0] = .error msg)
    (h5 : e [3, 0, 0, 0] = .ok t5)
    (h6 : e [4, 0, 0] = .ok t6)
    (n4 : pyStrip (joinSpace t4) ≠ "")
    (n5 : pyStrip (joinSpace t5) ≠ "")
    (n6 : pyStrip (joinSpace t6) ≠ "") :
    (trRun 1 1 e c6stream ⟨[], 0⟩).2.1
      = [[2, 0, 0], [3, 0, 0], [3, 0, 0, 0], [4, 0, 0]] ∧
    (trRun 1 1 e c6stream ⟨[], 0⟩).2.2
      = [pyStrip (joinSpace t4), pyStrip (joinSpace t5),
         pyStrip (joinSpace t6)] := by
  have hsp2 : isSpeech 1 [2] = true := by norm_num [isSpeech, sumSq]
  have hsp3 : isSpeech 1 [3] = true := by norm_num [isSpeech, sumSq]
  have hsp4 : isSpeech 1 [4] = true := by norm_num [isSpeech, sumSq]
  have hsi : isSpeech 1 [0] = false := by norm_num [isSpeech, sumSq]
  have st1 : trStep 1 1 e 0 [2] ⟨[], 0⟩ = (⟨[2], 0⟩, none, none) := by
    rw [trStep_speech 1 1 e [2] [] 0 0 hsp2 (by norm_num)]
    simp
  have st2 : trStep 1 1 e 1 [0] ⟨[2], 0⟩ = (⟨[2, 0], 0⟩, none, none) := by
    rw [trStep_quiet 1 1 e [0] [2] 0 1 hsi (by norm_num)]
    simp
  have st3 : trStep 1 1 e 2 [0] ⟨[2, 0], 0⟩
      = (⟨[], 2⟩, some [2, 0, 0], some (pyStrip (joinSpace t4))) := by
    rw [trStep_flush_ok 1 1 e [0] [2, 0] 0 2 t4 hsi (by norm_num) (by simp)
      (by simpa using h4), if_neg n4]
    simp
  have st4 : trStep 1 1 e 3 [3] ⟨[], 2⟩ = (⟨[3], 3⟩, none, none) := by
    rw [trStep_speech 1 1 e [3] [] 2 3 hsp3 (by norm_num)]
    simp
  have st5 : trStep 1 1 e 4 [0] ⟨[3], 3⟩ = (⟨[3, 0], 3⟩, none, none) := by
    rw [trStep_quiet 1 1 e [0] [3] 3 4 hsi (by norm_num)]
    simp
  have st6 : trStep 1 1 e 5 [0] ⟨[3, 0], 3⟩
      = (⟨[3, 0, 0], 3⟩, some [3, 0, 0], none) := by
    rw [trStep_flush_error 1 1 e [0] [3, 0] 3 5 msg hsi (by norm_num) (by simp)
      (by simpa using h5e)]
    simp
  have st7 : trStep 1 1 e 6 [0] ⟨[3, 0, 0], 3⟩
      = (⟨[], 6⟩, some [3, 0, 0, 0], some (pyStrip (joinSpace t5))) := by
    rw [trStep_flush_ok 1 1 e [0] [3, 0, 0] 3 6 t5 hsi (by norm_num) (by simp)
      (by simpa using h5), if_neg n5]
    simp
  have st8 : trStep 1 1 e 7 [4] ⟨[], 6⟩ = (⟨[4], 7⟩, none, none) := by
    rw [trStep_speech 1 1 e [4] [] 6 7 hsp4 (by norm_num)]
    simp
  have st9 : trStep 1 1 e 8 [0] ⟨[4], 7⟩ = (⟨[4, 0], 7⟩, none, none) := by
    rw [trStep_quiet 1 1 e [0] [4] 7 8 hsi (by norm_num)]
    simp
  have st10 : trStep 1 1 e 9 [0] ⟨[4, 0], 7⟩
      = (⟨[], 9⟩, some [4, 0, 0], some (pyStrip (joinSpace t6))) := by
    rw [trStep_flush_ok 1 1 e [0] [4, 0] 7 9 t6 hsi (by norm_num) (by simp)
      (by simpa using h6), if_neg n6]
    simp
  have hforward : trRun 1 1 e c6stream ⟨[], 0⟩
      = (⟨[], 9⟩, [[2, 0, 0], [3, 0, 0], [3, 0, 0, 0], [4, 0, 0]],
         [pyStrip (joinSpace t4), pyStrip (joinSpace t5),
          pyStrip (joinSpace t6)]) := by
    simp only [c6stream, trRun, st1, st2, st3, st4, st5, st6, st7, st8, st9, st10]
    simp
  exact ⟨by rw [hforward], by rw [hforward]⟩

/-- C6 (amended): when the engine raises on utterance #5's flush but
succeeds on the other calls, the transcriber loop is not terminated — the
transcript of #4 is pushed, and the transcript of #6's buffer is pushed
after it, in order — but the failed utterance's audio is not discarded:
its buffer is retained and re-submitted (grown by the next silent frame),
so between #4's and #6's transcripts the Matcher also receives a
transcript derived from utterance #5's audio, instead of no transcript at
all for #5. -/
theorem c6_engine_error_stage_survives
    (e : List ℚ → Except String (List String))
    (t4 t5 t6 : List String) (msg : String)
    (h4 : e [2, 0, 0] = .ok t4)
    (h5e : e [3, 0, 0] = .error msg)
    (h5 : e [3, 0, 0, 0] = .ok t5)
    (h6 : e [4, 0, 0] = .ok t6)
    (n4 : pyStrip (joinSpace t4) ≠ "")
    (n5 : pyStrip (joinSpace t5) ≠ "")
    (n6 : pyStrip (joinSpace t6) ≠ "") :
    (trRun 1 1 e c6stream ⟨[], 0⟩).2.1
      = [[2, 0, 0], [3, 0, 0], [3, 0, 0, 0], [4, 0, 0]] ∧
    (trRun 1 1 e c6stream ⟨[], 0⟩).2.2
      = [pyStrip (joinSpace t4), pyStrip (joinSpace t5),
         pyStrip (joinSpace t6)] :=
  trRun_c6stream e t4 t5 t6 msg h4 h5e h5 h6 n4 n5 n6

/-- C6 witness: the amended statement at a concrete engine that fails
exactly on the buffer `[3,0,0]`. -/
theorem c6_engine_error_stage_survives_witness :
    (trRun 1 1 (fun b => if b = [3, 0, 0] then .error "E"
        else .ok (if b.length = 4 then ["y"] else ["x"])) c6stream ⟨[], 0⟩).2.1
      = [[2, 0, 0], [3, 0, 0], [3, 0, 0, 0], [4, 0, 0]] ∧
    (trRun 1 1 (fun b => if b = [3, 0, 0] then .error "E"
        else .ok (if b.length = 4 then ["y"] else ["x"])) c6stream ⟨[], 0⟩).2.2
      = [pyStrip (joinSpace ["x"]), pyStrip (joinSpace ["y"]),
         pyStrip (joinSpace ["x"])] :=
  c6_engine_error_stage_survives
    (fun b => if b = [3, 0, 0] then .error "E"
      else .ok (if b.length = 4 then ["y"] else ["x"])) ["x"] ["y"] ["x"] "E"
    (by norm_num) (by norm_num) (by norm_num) (by norm_num)
    (by decide) (by decide) (by decide)

/-- C6 counterexample: it is not the case that whenever the engine raises
on utterance #5 and succeeds on #4 and #6, the Matcher receives exactly
the transcripts of #4 and #6.  With an engine failing exactly on the
buffer `[3,0,0]`, a third transcript — derived from #5's retained
audio — is delivered between them. -/
theorem c6_counterexample_failed_buffer_leaks :
    ¬ (∀ (e : List ℚ → Except String (List String)) (t4 t6 : List String)
         (msg : String),
        e [2, 0, 0] = .ok t4 → e [3, 0, 0] = .error msg →
        e [4, 0, 0] = .ok t6 →
        pyStrip (joinSpace t4) ≠ "" → pyStrip (joinSpace t6) ≠ "" →
        (trRun 1 1 e c6stream ⟨[], 0⟩).2.2
          = [pyStrip (joinSpace t4), pyStrip (joinSpace t6)]) := by
  intro h
  have h2 := h (fun b => if b = [3, 0, 0] then .error "E"
      else .ok (if b.length = 4 then ["y"] else ["x"])) ["x"] ["x"] "E"
    (by norm_num) (by norm_num) (by norm_num) (by decide) (by decide)
  have hvals := (trRun_c6stream (fun b => if b = [3, 0, 0] then .error "E"
      else .ok (if b.length = 4 then ["y"] else ["x"])) ["x"] ["y"] ["x"] "E"
    (by norm_num) (by norm_num) (by norm_num) (by norm_num)
    (by decide) (by decide) (by decide)).2
  rw [hvals] at h2
  simp at h2
